import Mathlib

/-! Shallow embedding of the signal-processing core of Impulcifer-pip313:
the impulse-response store and its croppers and aligners (hrir.py), the
virtual-bass synthesizer (core/virtual_bass.py) and the cross-validated
microphone-deviation corrector (microphone_deviation_correction.py).

Sample buffers are lists of rationals.  All control flow, index
arithmetic and list bookkeeping is translated directly from the Python
source; transcendental numeric subroutines that a rational embedding
cannot evaluate exactly (Butterworth coefficient design, FFT magnitudes,
Hann window values, homomorphic minimum-phase reconstruction, the
frequency-response pipeline of autoeq) enter as explicit parameters of
the context structures, so every theorem below holds for all values of
those parameters. -/

/-- Floor of a rational, written through Int.fdiv so that it evaluates. -/
def ratFloor (q : ℚ) : ℤ := Int.fdiv q.num q.den

/-- Python int() applied to a rational: truncation toward zero. -/
def pyInt (q : ℚ) : ℤ :=
  if 0 ≤ q then ratFloor q else -ratFloor (-q)

/-- numpy round: round half to even. -/
def roundHalfEven (q : ℚ) : ℤ :=
  let f := ratFloor q
  let r := q - (f : ℚ)
  if r < 1 / 2 then f
  else if (1 : ℚ) / 2 < r then f + 1
  else if f % 2 = 0 then f else f + 1

/-- Scan for argmaxList, keeping the index of the first strictly greatest value. -/
def argmaxAux : List ℚ → ℕ → ℕ → ℚ → ℕ
  | [], _, best, _ => best
  | x :: xs, i, best, bv =>
    if bv < x then argmaxAux xs (i + 1) i x else argmaxAux xs (i + 1) best bv

/-- numpy argmax over a list: index of the first maximal element, 0 when empty. -/
def argmaxList : List ℚ → ℕ
  | [] => 0
  | x :: xs => argmaxAux xs 1 0 x

/-- numpy argmin: index of the first minimal element. -/
def argminList (l : List ℚ) : ℕ := argmaxList (l.map (fun x => -x))

/-- Modelled from the spec: ImpulseResponse.peak_index of the external
impulse_response.py, which is not among the analyzed sources.  The spec
defines the peak index as the index of the maximum absolute sample,
matching numpy argmax over the absolute values. -/
def peak_index (data : List ℚ) : ℕ := argmaxList (data.map (fun x => |x|))

/-- numpy median: middle element of the sorted list, or the mean of the
two middle elements when the length is even. -/
def npMedian (l : List ℚ) : ℚ :=
  let s := List.insertionSort (· ≤ ·) l
  let n := l.length
  if n = 0 then 0
  else if n % 2 = 1 then s.getD (n / 2) 0
  else (s.getD (n / 2 - 1) 0 + s.getD (n / 2) 0) / 2

/-- numpy mean. -/
def npMean (l : List ℚ) : ℚ := l.sum / l.length

/-- Pointwise sum of two lists, keeping the tail of the longer one. -/
def superpose : List ℚ → List ℚ → List ℚ
  | [], ys => ys
  | xs, [] => xs
  | x :: xs, y :: ys => (x + y) :: superpose xs ys

/-- Full discrete convolution. -/
def convFull : List ℚ → List ℚ → List ℚ
  | [], _ => []
  | a :: as, v => superpose (v.map (fun x => a * x)) (0 :: convFull as v)

/-- scipy.signal.correlate with mode full: convolution against the
reversed second argument. -/
def correlateFull (a v : List ℚ) : List ℚ := convFull a v.reverse

/-- scipy.signal.convolve with mode same: the central slice, of the
length of the first argument, of the full convolution. -/
def convolveSame (a v : List ℚ) : List ℚ :=
  ((convFull a v).drop ((v.length - 1) / 2)).take a.length

/-- Python slice data[k:], including negative start indices counted from
the end and clamped to the list. -/
def pySliceFrom (data : List ℚ) (k : ℤ) : List ℚ :=
  if 0 ≤ k then data.drop k.toNat else data.drop (data.length - (-k).toNat)

/-- scipy.signal.unit_impulse of length n. -/
def unit_impulse (n : ℕ) : List ℚ :=
  match n with
  | 0 => []
  | m + 1 => 1 :: List.replicate m 0

/-- Python str.endswith, over the character lists of the strings. -/
def strEndsWith (s t : String) : Bool := t.data.isSuffixOf s.data

/-- ASCII model of Python str.upper, character by character. -/
def charUpper (c : Char) : Char :=
  if 'a' ≤ c ∧ c ≤ 'z' then Char.ofNat (c.toNat - 32) else c

/-- ASCII model of Python str.upper. -/
def strUpper (s : String) : String := ⟨s.data.map charUpper⟩

/-- Lookup in an association list modelling a dict keyed by band frequency. -/
def alookup {α : Type} (l : List (ℚ × α)) (k : ℚ) : Option α :=
  (l.find? (fun e => decide (e.1 = k))).map (fun e => e.2)

/-- Lookup in an association list modelling a dict keyed by speaker name. -/
def slookup {α : Type} (l : List (String × α)) (k : String) : Option α :=
  (l.find? (fun e => decide (e.1 = k))).map (fun e => e.2)

/-- Insert-or-overwrite in an association list, preserving Python dict
insertion order. -/
def upsert {α : Type} (l : List (String × α)) (k : String) (v : α) :
    List (String × α) :=
  if l.any (fun e => decide (e.1 = k)) then
    l.map (fun e => if e.1 = k then (k, v) else e)
  else l ++ [(k, v)]

/-- The HRIR store (HRIR.irs): speaker code with the left-ear and
right-ear sample buffers, in insertion order. -/
abbrev Store := List (String × (List ℚ × List ℚ))

/-- In-place numpy multiplication of the first w.length samples by w,
as in data[:len(w)] *= w. -/
def applyFadeIn (w data : List ℚ) : List ℚ :=
  List.zipWith (· * ·) w (data.take w.length) ++ data.drop w.length

/-- In-place numpy multiplication of the last w.length samples by w,
as in data[-len(w):] *= w. -/
def mulTail (w data : List ℚ) : List ℚ :=
  data.take (data.length - w.length) ++
    List.zipWith (· * ·) (data.drop (data.length - w.length)) w

/-- Context of HRIR.crop_heads: the sampling rates, the head window
parameter, the external SPEAKER_DELAYS table (constants.py is not among
the analyzed sources, so the per-speaker physical delay is an arbitrary
parameter) and the first half of a Hann window of twice the given
length (transcendental values, abstracted; only the length matters). -/
structure CropCtx where
  fs : ℚ
  estimatorFs : ℚ
  headMs : ℚ
  delays : String → ℚ
  hannHalf : ℕ → List ℚ

/-- The channel delay in samples computed by crop_heads:
int(np.round(SPEAKER_DELAYS[speaker] * fs)) + int(head_ms * fs / 1000). -/
def crop_heads_delay (ctx : CropCtx) (speaker : String) : ℤ :=
  roundHalfEven (ctx.delays speaker * ctx.fs) + pyInt (ctx.headMs * ctx.fs / 1000)

/-- Body of the per-speaker loop of HRIR.crop_heads: both ears are cut at
the same start index, taken from the peak of the later-arriving ear, and
the head of each cropped buffer is multiplied by the fade-in window. -/
def crop_heads_pair (ctx : CropCtx) (speaker : String) (left right : List ℚ) :
    List ℚ × List ℚ :=
  let peakL := peak_index left
  let peakR := peak_index right
  let delay := crop_heads_delay ctx speaker
  let w := ctx.hannHalf (pyInt (ctx.headMs * ctx.fs / 1000)).toNat
  if peakL < peakR then
    (applyFadeIn w (pySliceFrom left ((peakR : ℤ) - delay)),
     applyFadeIn w (pySliceFrom right ((peakR : ℤ) - delay)))
  else
    (applyFadeIn w (pySliceFrom left ((peakL : ℤ) - delay)),
     applyFadeIn w (pySliceFrom right ((peakL : ℤ) - delay)))

/-- HRIR.crop_heads: the sampling-rate guard, then the per-speaker crop. -/
def crop_heads (ctx : CropCtx) (store : Store) : Except String Store :=
  if ctx.fs ≠ ctx.estimatorFs then
    Except.error "sampling rate mismatch"
  else
    Except.ok (store.map (fun e => (e.1, crop_heads_pair ctx e.1 e.2.1 e.2.2)))

/-- The crop_heads delay formula in the words of the spec: both summands
rounded to the nearest sample. -/
def spec_delay_C1 (ctx : CropCtx) (speaker : String) : ℤ :=
  roundHalfEven (ctx.delays speaker * ctx.fs) +
    roundHalfEven (ctx.fs * ctx.headMs / 1000)

/-- Claim C1 as stated, at one speaker pair: both ears cropped starting
at near_peak - delay where near_peak is the peak index of the
earlier-arriving ear, expressed through the cropped lengths. -/
def claim_C1_at (ctx : CropCtx) (speaker : String) (l r : List ℚ) : Prop :=
  ((crop_heads_pair ctx speaker l r).1.length : ℤ)
      = l.length - ((min (peak_index l) (peak_index r) : ℤ) - spec_delay_C1 ctx speaker)
  ∧ ((crop_heads_pair ctx speaker l r).2.length : ℤ)
      = r.length - ((min (peak_index l) (peak_index r) : ℤ) - spec_delay_C1 ctx speaker)

/-- Context of HRIR.crop_tails: the sampling rates, the estimator-derived
fade length before the defensive caps (the sweep parameters live in the
external estimator, so the raw value is a parameter) and the tail half
of a Hann window of twice the given length. -/
structure TailCtx where
  fs : ℚ
  estimatorFs : ℚ
  fadeRaw : ℤ
  hannTail : ℕ → List ℚ

/-- Longest buffer length present in the store (np.max of the collected
lengths). -/
def store_max_len (store : Store) : ℕ :=
  (store.flatMap (fun e => [e.2.1.length, e.2.2.length])).foldl max 0

/-- Fade window length of HRIR.crop_tails after the two defensive caps. -/
def crop_tails_fade (ctx : TailCtx) (maxLen : ℕ) : ℤ :=
  let fade1 : ℤ := if ctx.fadeRaw ≤ 0 then pyInt (ctx.fs * (5 / 1000)) else ctx.fadeRaw
  if (maxLen : ℤ) / 2 < fade1 then
    (if 0 < (maxLen : ℤ) / 2 then (maxLen : ℤ) / 2 else 1)
  else fade1

/-- Tail processing of one buffer in HRIR.crop_tails: zero-pad to the
common maximum length (with the defensive truncation branch that cannot
fire), then multiply in the fade-out window. -/
def crop_tails_one (maxLen : ℕ) (w : List ℚ) (d : List ℚ) : List ℚ :=
  let d1 :=
    if d.length < maxLen then d ++ List.replicate (maxLen - d.length) 0
    else if maxLen < d.length then d.take maxLen
    else d
  if w.length ≤ d1.length then mulTail w d1
  else if 0 < d1.length then List.zipWith (· * ·) d1 (w.take d1.length)
  else d1

/-- HRIR.crop_tails: the sampling-rate guard, the empty-store early
return of 0, and otherwise equalization of every buffer to the maximum
length with the tail fade, returning the padded store and max_len. -/
def crop_tails (ctx : TailCtx) (store : Store) : Except String (Store × ℕ) :=
  if ctx.fs ≠ ctx.estimatorFs then Except.error "sampling rate mismatch"
  else if store = [] then Except.ok (store, 0)
  else
    let maxLen := store_max_len store
    let fade := crop_tails_fade ctx maxLen
    let w0 := ctx.hannTail fade.toNat
    let w := if w0 = [] ∧ 0 < fade then List.replicate fade.toNat 1 else w0
    Except.ok
      (store.map (fun e =>
        (e.1, (crop_tails_one maxLen w e.2.1, crop_tails_one maxLen w e.2.2))),
       maxLen)

/-- The segment of segment_ms milliseconds taken from the peak of a
buffer in HRIR.align_ipsilateral_all. -/
def peak_segment (fs segmentMs : ℚ) (a : List ℚ) : List ℚ :=
  (a.drop (peak_index a)).take (pyInt (fs / 1000 * segmentMs)).toNat

/-- Integer-sample delay of HRIR.align_ipsilateral_all: argmax of the
full cross-correlation of the two peak-anchored segments, minus the
length of the second segment less one. -/
def align_delay (fs segmentMs : ℚ) (a b : List ℚ) : ℤ :=
  let segA := peak_segment fs segmentMs a
  let segB := peak_segment fs segmentMs b
  (argmaxList (correlateFull segA segB) : ℤ) - ((segB.length : ℤ) - 1)

/-- Replace the chosen-side buffer of one speaker in the store. -/
def setSide (store : Store) (name : String) (isLeft : Bool) (d : List ℚ) : Store :=
  store.map (fun e =>
    if e.1 = name then (e.1, if isLeft then (d, e.2.2) else (e.2.1, d)) else e)

/-- One iteration of HRIR.align_ipsilateral_all over a declared speaker
pair: skip missing speakers and center pairs, read the delay from the
cross-correlation, and zero-pad the beginning of the second (first)
buffer when the delay is positive (otherwise). -/
def align_pair_step (fs segmentMs : ℚ) (store : Store) (pr : String × String) : Store :=
  match slookup store pr.1, slookup store pr.2 with
  | some pa, some pb =>
    if strEndsWith pr.1 "L" ∨ strEndsWith pr.1 "R" then
      let isLeft := strEndsWith pr.1 "L"
      let a := if isLeft then pa.1 else pa.2
      let b := if isLeft then pb.1 else pb.2
      let d := align_delay fs segmentMs a b
      if 0 < d then setSide store pr.2 isLeft (List.replicate d.toNat 0 ++ b)
      else setSide store pr.1 isLeft (List.replicate (-d).toNat 0 ++ a)
    else store
  | _, _ => store

/-- HRIR.align_ipsilateral_all over the declared speaker pairs. -/
def align_ipsilateral_all (fs segmentMs : ℚ) (pairs : List (String × String))
    (store : Store) : Store :=
  pairs.foldl (align_pair_step fs segmentMs) store

/-- Claim C5 as stated, for a left-side pair whose second buffer is the
first delayed by delta samples: the recovered delay has magnitude delta
and the post-alignment peak indices coincide. -/
def claim_C5_at (fs segmentMs : ℚ) (store : Store) (sa sb : String) (delta : ℕ) : Prop :=
  match slookup store sa, slookup store sb with
  | some pa, some pb =>
      (align_delay fs segmentMs pa.1 pb.1).natAbs = delta ∧
      (match slookup (align_ipsilateral_all fs segmentMs [(sa, sb)] store) sa,
             slookup (align_ipsilateral_all fs segmentMs [(sa, sb)] store) sb with
       | some qa, some qb => peak_index qa.1 = peak_index qb.1
       | _, _ => False)
  | _, _ => False

/-- Context of HRIR.channel_balance_firs.  The named frequency-response
branches run through autoeq smoothing and minimum-phase reconstruction,
so their resulting FIR filters and the mids level difference enter as
parameters, as do the decibel-to-linear power map and the Python float
parser; the dispatch, the unit impulses and the gain scaling are
translated from the source. -/
structure CBCtx where
  fs : ℚ
  db2lin : ℚ → ℚ
  floatParse : String → Option ℚ
  midsDiffDb : ℚ
  trendFir : List ℚ
  sideFir : List ℚ
  avgFirs : List ℚ × List ℚ
  minFirs : List ℚ × List ℚ

/-- HRIR.channel_balance_firs: dispatch over the method string, with the
numeric fallback branch that parses the method as a float and the
ValueError raised when parsing fails. -/
def channel_balance_firs (ctx : CBCtx) (method : String) :
    Except String (List ℚ × List ℚ) :=
  if method = "mids" then
    let gain := ctx.db2lin ctx.midsDiffDb
    let n := (roundHalfEven (ctx.fs * (1 / 10))).toNat
    Except.ok (unit_impulse n, (unit_impulse n).map (fun x => x * gain))
  else if method = "trend" then
    Except.ok (unit_impulse ctx.trendFir.length, ctx.trendFir)
  else if method = "left" then
    Except.ok (unit_impulse ctx.sideFir.length, ctx.sideFir)
  else if method = "right" then
    Except.ok (ctx.sideFir, unit_impulse ctx.sideFir.length)
  else if method = "avg" then Except.ok ctx.avgFirs
  else if method = "min" then Except.ok ctx.minFirs
  else
    match ctx.floatParse method with
    | some x =>
      let gain := ctx.db2lin x
      let n := (roundHalfEven (ctx.fs * (1 / 10))).toNat
      Except.ok (unit_impulse n, (unit_impulse n).map (fun x => x * gain))
    | none =>
      Except.error (method ++ " is not valid value for channel balance method.")

/-- The expected_ild_sign table of CrossValidatedMicrophoneCorrector,
with the dict.get default of 0 for unknown speakers. -/
def expected_ild_sign (s : String) : ℚ :=
  if s = "FL" then 1 else if s = "FC" then 0 else if s = "FR" then -1
  else if s = "SL" then 1 else if s = "SR" then -1
  else if s = "BL" then 4 / 5 else if s = "BC" then 0 else if s = "BR" then -(4 / 5)
  else if s = "TFL" then 1 / 2 else if s = "TFC" then 0 else if s = "TFR" then -(1 / 2)
  else if s = "TBL" then 1 / 2 else if s = "TBC" then 0 else if s = "TBR" then -(1 / 2)
  else if s = "TSL" then 1 / 2 else if s = "TSR" then -(1 / 2)
  else 0

/-- Deviations of the speakers that recorded the given band, in
collection order. -/
def band_entries (devs : List (String × List (ℚ × ℚ))) (f : ℚ) :
    List (String × ℚ) :=
  devs.filterMap (fun sd => (alookup sd.2 f).map (fun d => (sd.1, d)))

/-- The anomalous and neutral deviation lists of
separate_microphone_error, translated from the if/elif chain. -/
def partition_deviations : List (String × ℚ) → List ℚ × List ℚ
  | [] => ([], [])
  | (sp, d) :: rest =>
    let p := partition_deviations rest
    let e := expected_ild_sign sp
    if 1 / 2 < e ∧ d < 0 then (d :: p.1, p.2)
    else if e < -(1 / 2) ∧ 0 < d then (d :: p.1, p.2)
    else if |e| ≤ 1 / 2 then (p.1, d :: p.2)
    else p

/-- Per-band microphone error estimate of separate_microphone_error. -/
def mic_error_band (devs : List (String × List (ℚ × ℚ))) (f : ℚ) : ℚ :=
  let entries := band_entries devs f
  let p := partition_deviations entries
  if p.1 ≠ [] then npMedian p.1
  else if p.2 ≠ [] then npMedian p.2
  else if entries ≠ [] then npMedian (entries.map (fun e => e.2)) * (3 / 10)
  else 0

/-- CrossValidatedMicrophoneCorrector.separate_microphone_error: empty
result when nothing was collected, otherwise one estimate per band. -/
def separate_microphone_error (bands : List ℚ)
    (devs : List (String × List (ℚ × ℚ))) : List (ℚ × ℚ) :=
  if devs = [] then [] else bands.map (fun f => (f, mic_error_band devs f))

/-- Anomalous deviations in the words of the spec: prior magnitude above
0.5 and the deviation sign contradicting the prior. -/
def spec_anomalous (entries : List (String × ℚ)) : List ℚ :=
  entries.filterMap (fun e =>
    if 1 / 2 < |expected_ild_sign e.1| ∧ expected_ild_sign e.1 * e.2 < 0 then
      some e.2
    else none)

/-- Neutral deviations in the words of the spec: prior magnitude at most
0.5. -/
def spec_neutral (entries : List (String × ℚ)) : List ℚ :=
  entries.filterMap (fun e =>
    if |expected_ild_sign e.1| ≤ 1 / 2 then some e.2 else none)

/-- Per-band estimate in the words of the spec: median of the anomalous
deviations when any exist, else median of the neutral ones when any
exist, else 0.3 times the median of all collected deviations. -/
def spec_band_estimate (devs : List (String × List (ℚ × ℚ))) (f : ℚ) : ℚ :=
  let entries := band_entries devs f
  if spec_anomalous entries ≠ [] then npMedian (spec_anomalous entries)
  else if spec_neutral entries ≠ [] then npMedian (spec_neutral entries)
  else (3 / 10) * npMedian (entries.map (fun e => e.2))

/-- Validation outcome of validate_consistency. -/
structure ValidationResult where
  score : ℚ
  isValid : Bool
  confidence : String
deriving DecidableEq

/-- Scores collected by validate_consistency over every band in the
estimate and every speaker with a strong prior at that band. -/
def validation_scores (bands : List ℚ) (micErr : List (ℚ × ℚ))
    (devs : List (String × List (ℚ × ℚ))) : List ℚ :=
  bands.flatMap (fun f =>
    match alookup micErr f with
    | none => []
    | some me => devs.flatMap (fun sd =>
      match alookup sd.2 f with
      | none => []
      | some raw =>
        let e := expected_ild_sign sd.1
        if 3 / 10 < |e| then
          [if 0 < (raw - me) * e then 1
           else if |raw - me| < 1 then 1 / 2
           else 0]
        else []))

/-- CrossValidatedMicrophoneCorrector.validate_consistency; none models
the early data-shortage return. -/
def validate_consistency (bands : List ℚ) (micErr : List (ℚ × ℚ))
    (devs : List (String × List (ℚ × ℚ))) : Option ValidationResult :=
  if micErr = [] ∨ devs = [] then none
  else
    let scores := validation_scores bands micErr devs
    let c := if scores ≠ [] then npMean scores else 1 / 2
    some { score := c
           isValid := decide (2 / 5 < c)
           confidence := if 7 / 10 < c then "high"
                         else if 1 / 2 < c then "medium" else "low" }

/-- One consistency score in the words of the spec: 1 when the corrected
deviation has the sign of the prior, 0.5 when its magnitude is below one
decibel, 0 otherwise. -/
def spec_score (prior corrected : ℚ) : ℚ :=
  if 0 < corrected * prior then 1 else if |corrected| < 1 then 1 / 2 else 0

/-- Context of apply_microphone_deviation_correction_to_hrir: band list
and correction strength, the per-speaker band-level measurement of
collect_speaker_deviation (bandpass filtering, gating and FFT levels,
abstracted) and the interpolating minimum-phase filter design of
design_correction_filters (abstracted), as a function of the strength in
force and the estimate. -/
structure MicCtx where
  bands : List ℚ
  strength : ℚ
  measure : String → List ℚ × List ℚ → List (ℚ × ℚ)
  designFir : ℚ → List (ℚ × ℚ) → List ℚ × List ℚ

/-- Result record of apply_microphone_deviation_correction_to_hrir. -/
structure MicResult where
  store : Store
  micErrorEstimate : List (ℚ × ℚ)
  crossValidated : Bool
  singleSpeakerFallback : Bool
  validation : Option ValidationResult

/-- Pass 1 of the corrector: collect per-speaker deviations in dict
insertion order. -/
def collect_all (ctx : MicCtx) (store : Store) : List (String × List (ℚ × ℚ)) :=
  store.foldl (fun acc e => upsert acc e.1 (ctx.measure e.1 e.2)) []

/-- design_correction_filters with its empty-estimate unit-impulse
guard; the interpolation and FIR reconstruction enter through the
context. -/
def design_correction_filters (ctx : MicCtx) (strength : ℚ)
    (est : List (ℚ × ℚ)) : List ℚ × List ℚ :=
  if est = [] then ([1], [1]) else ctx.designFir strength est

/-- apply_microphone_deviation_correction_to_hrir: the single-speaker
fallback when fewer than two speakers contributed deviations, otherwise
the cross-validated path with consistency validation and strength
halving on failure. -/
def apply_mic_correction (ctx : MicCtx) (store : Store) : MicResult :=
  let devs := collect_all ctx store
  if devs.length < 2 then
    let est := match devs with | [] => [] | e :: _ => e.2
    let fir := design_correction_filters ctx ctx.strength est
    let store' := store.map (fun e =>
      (e.1, if 1 < fir.1.length then
              (convolveSame e.2.1 fir.1, convolveSame e.2.2 fir.2)
            else e.2))
    { store := store', micErrorEstimate := est, crossValidated := false,
      singleSpeakerFallback := true, validation := none }
  else
    let est := separate_microphone_error ctx.bands devs
    if est = [] then
      { store := store, micErrorEstimate := [], crossValidated := true,
        singleSpeakerFallback := false, validation := none }
    else
      let val := validate_consistency ctx.bands est devs
      let ok := match val with | some v => v.isValid | none => false
      let strength := if ok then ctx.strength else ctx.strength / 2
      let fir := design_correction_filters ctx strength est
      let store' := store.map (fun e =>
        (e.1, if 1 < fir.1.length ∧ 1 < fir.2.length then
                (convolveSame e.2.1 fir.1, convolveSame e.2.2 fir.2)
              else e.2))
      { store := store', micErrorEstimate := est, crossValidated := true,
        singleSpeakerFallback := false, validation := val }

/-- One second-order section (b0, b1, b2, a1, a2) with a0 normalized to
1, as produced by scipy butter with sos output. -/
structure Biquad where
  b0 : ℚ
  b1 : ℚ
  b2 : ℚ
  a1 : ℚ
  a2 : ℚ

/-- Direct-form II transposed run of one second-order section with zero
initial state, as in scipy sosfilt. -/
def biquadRun (c : Biquad) : List ℚ → ℚ → ℚ → List ℚ
  | [], _, _ => []
  | x :: xs, z1, z2 =>
    let y := c.b0 * x + z1
    y :: biquadRun c xs (c.b1 * x - c.a1 * y + z2) (c.b2 * x - c.a2 * y)

/-- scipy.signal.sosfilt: the second-order sections applied in turn. -/
def sosfilt (sos : List Biquad) (xs : List ℚ) : List ℚ :=
  sos.foldl (fun acc c => biquadRun c acc 0 0) xs

/-- virtual_bass._detect_polarity: the sign of the sample of greatest
magnitude. -/
def detect_polarity (ir : List ℚ) : ℚ :=
  if 0 ≤ ir.getD (peak_index ir) 0 then 1 else -1

/-- numpy roll, as used by virtual_bass._shift. -/
def np_roll (a : List ℚ) (n : ℤ) : List ℚ :=
  if a.length = 0 then a else a.rotate ((-n % (a.length : ℤ)).toNat)

/-- The ILD shelf threshold table of virtual_bass: minimum crossover,
shelf frequency, shelf gain in dB. -/
def ild_shelf_table : List (ℚ × ℚ × ℚ) := [(80, 50, 3), (160, 100, 9 / 2), (250, 150, 6)]

/-- Shelf data returned by virtual_bass._build_ild_shelf. -/
structure ShelfInfo where
  sos : List Biquad
  gainLinear : ℚ
  gainDb : ℚ

/-- virtual_bass._build_ild_shelf: the last table entry whose threshold
the crossover reaches is kept; pow10 models 10 ** x and butter2lp the
second-order low-pass design at the shelf frequency. -/
def build_ild_shelf (pow10 : ℚ → ℚ) (butter2lp : ℚ → List Biquad) (xo : ℚ) :
    Option ShelfInfo :=
  let best := ild_shelf_table.foldl
    (fun acc e => if e.1 ≤ xo then some (e.2.1, e.2.2) else acc)
    (none : Option (ℚ × ℚ))
  match best with
  | none => none
  | some (f, g) =>
    some { sos := butter2lp f, gainLinear := pow10 (g / 20), gainDb := g }

/-- virtual_bass._apply_ild_shelf: no change without a shelf or for a
center speaker; the low-passed component is boosted on the ipsilateral
ear and cut on the contralateral ear. -/
def apply_ild_shelf (shelf : Option ShelfInfo) (ir : List ℚ)
    (side speakerClass : String) : List ℚ :=
  match shelf with
  | none => ir
  | some s =>
    if speakerClass = "center" then ir
    else
      let lf := sosfilt s.sos ir
      if speakerClass = side then
        List.zipWith (· + ·) ir (lf.map (fun x => (s.gainLinear - 1) * (1 / 2) * x))
      else
        List.zipWith (fun x y => x - y) ir
          (lf.map (fun x => (1 - 1 / s.gainLinear) * (1 / 2) * x))

/-- The left-side speaker set of virtual_bass. -/
def left_side_speakers : List String := ["FL", "SL", "BL", "WL", "TFL", "TSL", "TBL"]

/-- The right-side speaker set of virtual_bass. -/
def right_side_speakers : List String := ["FR", "SR", "BR", "WR", "TFR", "TSR", "TBR"]

/-- virtual_bass._classify_speaker. -/
def classify_speaker (name : String) : String :=
  let u := strUpper name
  if u ∈ left_side_speakers then "left"
  else if u ∈ right_side_speakers then "right"
  else "center"

/-- Index of the rfft bin closest to the crossover, np.argmin over the
rfftfreq axis of a buffer of length d. -/
def freq_idx_for (d : ℕ) (fs xo : ℚ) : ℕ :=
  argminList ((List.range (d / 2 + 1)).map (fun k => |(k : ℚ) * fs / (d : ℚ) - xo|))

/-- Context of synthesize_virtual_bass.  Scalar parameters are exact;
the Butterworth section coefficients, the power function, the rfft bin
magnitude (signal, fft length, bin) and the homomorphic minimum-phase
reconstruction of the low-pass magnitude spectrum (none models the
exception caught by the try block) are abstract parameters. -/
structure VBCtx where
  fs : ℚ
  crossover : ℚ
  headMs : ℚ
  invertPolarity : Option Bool
  sosLp8 : List Biquad
  sosHp8 : List Biquad
  sosHpSub : List Biquad
  pow10 : ℚ → ℚ
  butterLp2 : ℚ → List Biquad
  minPhaseOfSignal : List ℚ → Option (List ℚ)
  rfftMagAt : List ℚ → ℕ → ℕ → ℚ

/-- Step 4 of the synthesize_virtual_bass loop: pad the corrected
low-pass band to even length, rebuild a minimum-phase version from its
magnitude spectrum, trim or pad it back to the band length, and fall
back to the absolute values of the band when the reconstruction throws. -/
def vb_min_phase_bass (ctx : VBCtx) (irLpC : List ℚ) : List ℚ :=
  let lpLen := irLpC.length
  let padded := if lpLen % 2 ≠ 0 then irLpC ++ [0] else irLpC
  match ctx.minPhaseOfSignal padded with
  | some mp =>
    if mp.length < lpLen then mp ++ List.replicate (lpLen - mp.length) 0
    else mp.take lpLen
  | none => irLpC.map (fun x => |x|)

/-- Per-channel body of synthesize_virtual_bass, steps 1 to 10 of the
loop: crossover split, polarity, minimum-phase reconstruction with its
magnitude fallback, rumble high-pass, gain matching at the crossover
bin, polarity restoration, ILD shelf, head alignment and
recombination. -/
def vb_channel (ctx : VBCtx) (shelf : Option ShelfInfo) (freqIdx : ℕ)
    (side speakerClass : String) (ir : List ℚ) : List ℚ :=
  let irHp := sosfilt ctx.sosHp8 ir
  let irLp := sosfilt ctx.sosLp8 ir
  let polarity : ℚ :=
    match ctx.invertPolarity with
    | none => detect_polarity irLp
    | some true => -1
    | some false => 1
  let irLpC := irLp.map (fun x => x * polarity)
  let irBass0 := vb_min_phase_bass ctx irLpC
  let irBass1 := sosfilt ctx.sosHpSub irBass0
  let n := irHp.length
  let nBins := n / 2 + 1
  let magHp := if freqIdx < nBins then ctx.rfftMagAt irHp n freqIdx else 1
  let magBass := if freqIdx < nBins then ctx.rfftMagAt irBass1 n freqIdx else 1
  let gain := if 1 / 10 ^ 10 < magBass then magHp / magBass else 1
  let irBass2 := (irBass1.map (fun x => x * gain)).map (fun x => x * polarity)
  let irBass3 := apply_ild_shelf shelf irBass2 side speakerClass
  let headSamples := pyInt (ctx.headMs * ctx.fs / 1000)
  let bassPeak := peak_index irBass3
  let irBass4 :=
    if headSamples < (bassPeak : ℤ) then np_roll irBass3 (headSamples - bassPeak)
    else irBass3
  List.zipWith (· + ·) irHp (irBass4.take irHp.length)

/-- synthesize_virtual_bass: the Nyquist guard that leaves the store
untouched, then the per-speaker, per-ear loop, with the crossover bin
index computed lazily from the first processed buffer. -/
def synthesize_virtual_bass (ctx : VBCtx) (store : Store) : Store :=
  if ctx.fs / 2 ≤ ctx.crossover then store
  else
    match store with
    | [] => []
    | e0 :: _ =>
      let freqIdx := freq_idx_for e0.2.1.length ctx.fs ctx.crossover
      let shelf := build_ild_shelf ctx.pow10 ctx.butterLp2 ctx.crossover
      store.map (fun e =>
        let c := classify_speaker e.1
        (e.1, (vb_channel ctx shelf freqIdx "left" c e.2.1,
               vb_channel ctx shelf freqIdx "right" c e.2.2)))

/-- Concrete crop_heads context used by the C1 counterexample and
witness: fs 1000 Hz, head_ms 1.5 (so that rounding and truncation of
the head term differ), zero physical delays, and the exact value of
hann(2n)[:n] for n = 1, extended with zeros. -/
def ctx_C1 : CropCtx :=
  { fs := 1000, estimatorFs := 1000, headMs := 3 / 2,
    delays := fun _ => 0, hannHalf := fun n => List.replicate n 0 }

/-- Left-ear buffer of the C1 example: peak at sample 5 of 12. -/
def data_C1_left : List ℚ := [0, 0, 0, 0, 0, 1, 0, 0, 0, 0, 0, 0]

/-- Right-ear buffer of the C1 example: peak at sample 8 of 12. -/
def data_C1_right : List ℚ := [0, 0, 0, 0, 0, 0, 0, 0, 1, 0, 0, 0]

/-- Store of the C5 example: SL holds the FL buffer delayed by exactly
two samples. -/
def store_C5 : Store :=
  [("FL", ([1, 0, 0], [])), ("SL", (List.replicate 2 0 ++ [1, 0, 0], []))]

/-- Virtual-bass context with the crossover at the Nyquist frequency,
used by the C3 witness. -/
def vb_ctx_abort : VBCtx :=
  { fs := 2, crossover := 1, headMs := 1, invertPolarity := none,
    sosLp8 := [], sosHp8 := [], sosHpSub := [],
    pow10 := fun _ => 1, butterLp2 := fun _ => [],
    minPhaseOfSignal := fun _ => none, rfftMagAt := fun _ _ _ => 0 }

/-- Virtual-bass context below the Nyquist frequency, used by the C10
witness: one nontrivial section per filter and a minimum-phase
reconstruction that returns a buffer of the wrong length, exercising
the trim and pad branches. -/
def vb_ctx_run : VBCtx :=
  { fs := 1000, crossover := 250, headMs := 1, invertPolarity := none,
    sosLp8 := [{ b0 := 1, b1 := 1, b2 := 0, a1 := 0, a2 := 0 }],
    sosHp8 := [{ b0 := 1, b1 := -1, b2 := 0, a1 := 0, a2 := 0 }],
    sosHpSub := [{ b0 := 1, b1 := 0, b2 := 0, a1 := 0, a2 := 0 }],
    pow10 := fun _ => 2, butterLp2 := fun _ => [],
    minPhaseOfSignal := fun _ => some [1], rfftMagAt := fun _ _ _ => 1 }

/-- Channel-balance context of the C9 witness: fs 10 Hz so the 100 ms
filter has a single tap, a parser accepting exactly the string 3, and
an abstract decibel map sending 3 to 4. -/
def cb_ctx_w : CBCtx :=
  { fs := 10, db2lin := fun x => x + 1,
    floatParse := fun s => if s = "3" then some (3 : ℚ) else none,
    midsDiffDb := 3, trendFir := [], sideFir := [],
    avgFirs := ([], []), minFirs := ([], []) }

/-- Microphone-correction context of the C8 witness: one band, constant
measured deviation of 2 dB at 250 Hz, identity-like filter design. -/
def mic_ctx_w : MicCtx :=
  { bands := [250], strength := 7 / 10,
    measure := fun _ _ => [(250, 2)],
    designFir := fun _ _ => ([1], [1]) }

/-- crop_tails context of the C4 witness: fs 200 Hz so the default 5 ms
fade is one sample, and an all-ones stand-in for the Hann tail. -/
def ctx_C4 : TailCtx :=
  { fs := 200, estimatorFs := 200, fadeRaw := 0,
    hannTail := fun n => List.replicate n 1 }

theorem ratFloor_eq (q : ℚ) : ratFloor q = ⌊q⌋ := by
  rw [ratFloor, Int.fdiv_eq_ediv _ (by exact_mod_cast Nat.zero_le q.den), Rat.floor_def]

theorem pyInt_eq (q : ℚ) : pyInt q = if 0 ≤ q then ⌊q⌋ else -⌊-q⌋ := by
  rw [pyInt, ratFloor_eq, ratFloor_eq]

theorem roundHalfEven_eq (q : ℚ) :
    roundHalfEven q =
      (if q - (⌊q⌋ : ℚ) < 1 / 2 then ⌊q⌋
       else if (1 : ℚ) / 2 < q - (⌊q⌋ : ℚ) then ⌊q⌋ + 1
       else if ⌊q⌋ % 2 = 0 then ⌊q⌋ else ⌊q⌋ + 1) := by
  rw [roundHalfEven, ratFloor_eq]

/-- C3: for every store and every crossover frequency at or above half
the sampling rate, synthesize_virtual_bass returns with every buffer of
the store exactly equal to its input value. -/
theorem C3_nyquist_guard (ctx : VBCtx) (store : Store)
    (h : ctx.fs / 2 ≤ ctx.crossover) :
    synthesize_virtual_bass ctx store = store := by
  rw [synthesize_virtual_bass.eq_def, if_pos h]

/-- Witness for C3: the guard fires at fs 2 and crossover 1 and hands
back the concrete store unchanged. -/
theorem C3_witness :
    synthesize_virtual_bass vb_ctx_abort [("FL", ([1, 2], [3]))]
      = [("FL", ([1, 2], [3]))] :=
  C3_nyquist_guard vb_ctx_abort [("FL", ([1, 2], [3]))] (by norm_num [vb_ctx_abort])

/-- C9: a method string outside the named set is parsed as a float; on
success channel_balance_firs applies the fixed gain 10^(x/20) exactly as
the mids branch does (left a unit impulse, right a 100 ms unit impulse
scaled by the gain) and when parsing fails it raises a ValueError. -/
theorem C9_numeric_method (ctx : CBCtx) (method : String)
    (hm : method ∉ (["mids", "trend", "left", "right", "avg", "min"] : List String)) :
    (∀ x, ctx.floatParse method = some x →
        channel_balance_firs ctx method =
          Except.ok (unit_impulse (roundHalfEven (ctx.fs * (1 / 10))).toNat,
            (unit_impulse (roundHalfEven (ctx.fs * (1 / 10))).toNat).map
              (fun v => v * ctx.db2lin x)))
    ∧ (ctx.floatParse method = none →
        channel_balance_firs ctx method =
          Except.error (method ++ " is not valid value for channel balance method."))
    ∧ channel_balance_firs ctx "mids" =
        Except.ok (unit_impulse (roundHalfEven (ctx.fs * (1 / 10))).toNat,
          (unit_impulse (roundHalfEven (ctx.fs * (1 / 10))).toNat).map
            (fun v => v * ctx.db2lin ctx.midsDiffDb)) := by
  simp only [List.mem_cons, List.not_mem_nil, or_false, not_or] at hm
  obtain ⟨h1, h2, h3, h4, h5, h6⟩ := hm
  refine ⟨?_, ?_, ?_⟩
  · intro x hx
    rw [channel_balance_firs, if_neg h1, if_neg h2, if_neg h3, if_neg h4,
      if_neg h5, if_neg h6, hx]
  · intro hx
    rw [channel_balance_firs, if_neg h1, if_neg h2, if_neg h3, if_neg h4,
      if_neg h5, if_neg h6, hx]
  · rw [channel_balance_firs, if_pos rfl]

/-- Witness for C9: the context accepts exactly the string 3, fs is 10,
so both filters have one tap and the right one carries the gain. -/
theorem C9_witness : channel_balance_firs cb_ctx_w "3" = Except.ok ([1], [4]) := by
  have h := (C9_numeric_method cb_ctx_w "3" (by decide)).1 3 (by simp [cb_ctx_w])
  rw [h]
  norm_num [cb_ctx_w, unit_impulse, roundHalfEven_eq]

/-- C8: with fewer than two distinct contributing speakers the corrector
takes the single-speaker fallback: the first collected raw deviation map
becomes the microphone error estimate directly, the cross-validated path
and the consistency validation are skipped, and a result is still
produced. -/
theorem C8_single_speaker_fallback (ctx : MicCtx) (store : Store)
    (h : (collect_all ctx store).length < 2) :
    (apply_mic_correction ctx store).singleSpeakerFallback = true
    ∧ (apply_mic_correction ctx store).crossValidated = false
    ∧ (apply_mic_correction ctx store).validation = none
    ∧ ∀ sp d rest, collect_all ctx store = (sp, d) :: rest →
        (apply_mic_correction ctx store).micErrorEstimate = d := by
  simp only [apply_mic_correction, if_pos h]
  refine ⟨trivial, trivial, trivial, ?_⟩
  intro sp d rest hcol
  simp [hcol]

/-- Witness for C8: one speaker, one band, measured deviation 2 dB. -/
theorem C8_witness :
    (apply_mic_correction mic_ctx_w [("FL", ([], []))]).micErrorEstimate = [(250, 2)]
    ∧ (apply_mic_correction mic_ctx_w [("FL", ([], []))]).singleSpeakerFallback = true := by
  have h := C8_single_speaker_fallback mic_ctx_w [("FL", ([], []))]
    (by simp [collect_all, upsert, mic_ctx_w])
  exact ⟨h.2.2.2 "FL" [(250, 2)] [] (by simp [collect_all, upsert, mic_ctx_w]), h.1⟩

theorem build_ild_shelf_cases (p : ℚ → ℚ) (b : ℚ → List Biquad) (xo : ℚ) :
    build_ild_shelf p b xo =
      if (250 : ℚ) ≤ xo then
        some { sos := b 150, gainLinear := p (6 / 20), gainDb := 6 }
      else if (160 : ℚ) ≤ xo then
        some { sos := b 100, gainLinear := p (9 / 2 / 20), gainDb := 9 / 2 }
      else if (80 : ℚ) ≤ xo then
        some { sos := b 50, gainLinear := p (3 / 20), gainDb := 3 }
      else none := by
  rw [build_ild_shelf, ild_shelf_table]
  rcases le_or_lt 250 xo with h1 | h1
  · have h2 : (160 : ℚ) ≤ xo := by linarith
    have h3 : (80 : ℚ) ≤ xo := by linarith
    simp [List.foldl, h1, h2, h3]
  · rcases le_or_lt 160 xo with h2 | h2
    · have h3 : (80 : ℚ) ≤ xo := by linarith
      simp [List.foldl, not_le.mpr h1, h2, h3]
    · rcases le_or_lt 80 xo with h3 | h3
      · simp [List.foldl, not_le.mpr h1, not_le.mpr h2, h3]
      · simp [List.foldl, not_le.mpr h1, not_le.mpr h2, not_le.mpr h3]

/-- C7: the ILD shelf is the highest-threshold table entry whose minimum
crossover the crossover frequency reaches, and none when no entry
qualifies; with a shelf, a non-center speaker has the low-passed
component of its bass boosted by (gain - 1)/2 on the ipsilateral ear and
cut by (1 - 1/gain)/2 on the contralateral ear, while center speakers
are left unchanged by the shelf step. -/
theorem C7_ild_shelf (p : ℚ → ℚ) (b : ℚ → List Biquad) (xo : ℚ) :
    ((build_ild_shelf p b xo = none ↔ ∀ e ∈ ild_shelf_table, ¬ e.1 ≤ xo)
     ∧ ∀ s, build_ild_shelf p b xo = some s →
         ∃ e ∈ ild_shelf_table, e.1 ≤ xo
           ∧ s = { sos := b e.2.1, gainLinear := p (e.2.2 / 20), gainDb := e.2.2 }
           ∧ ∀ e2 ∈ ild_shelf_table, e2.1 ≤ xo → e2.1 ≤ e.1)
    ∧ ∀ (s : ShelfInfo) (ir : List ℚ) (side : String),
        apply_ild_shelf (some s) ir side "center" = ir
        ∧ (side ≠ "center" →
            apply_ild_shelf (some s) ir side side
              = List.zipWith (fun x y => x + (s.gainLinear - 1) / 2 * y) ir
                  (sosfilt s.sos ir))
        ∧ ∀ cls, cls ≠ side → cls ≠ "center" →
            apply_ild_shelf (some s) ir side cls
              = List.zipWith (fun x y => x - (1 - 1 / s.gainLinear) / 2 * y) ir
                  (sosfilt s.sos ir) := by
  refine ⟨⟨?_, ?_⟩, ?_⟩
  · rw [build_ild_shelf_cases]
    split_ifs with h1 h2 h3
    · simp only [ild_shelf_table, List.forall_mem_cons]
      simp [h1]
    · simp only [ild_shelf_table, List.forall_mem_cons]
      simp [h2]
    · simp only [ild_shelf_table, List.forall_mem_cons]
      simp [h3]
    · simp only [ild_shelf_table, List.forall_mem_cons]
      simp [h1, h2, h3, List.not_mem_nil]
  · intro s hs
    rw [build_ild_shelf_cases] at hs
    split_ifs at hs with h1 h2 h3
    · refine ⟨(250, 150, 6), by simp [ild_shelf_table], h1,
        (Option.some.inj hs).symm, ?_⟩
      intro e2 he2 _
      simp only [ild_shelf_table, List.mem_cons, List.not_mem_nil, or_false] at he2
      rcases he2 with h | h | h <;> subst h <;> norm_num
    · refine ⟨(160, 100, 9 / 2), by simp [ild_shelf_table], h2,
        (Option.some.inj hs).symm, ?_⟩
      intro e2 he2 hle
      simp only [ild_shelf_table, List.mem_cons, List.not_mem_nil, or_false] at he2
      rcases he2 with h | h | h <;> subst h <;> simp_all <;> linarith
    · refine ⟨(80, 50, 3), by simp [ild_shelf_table], h3,
        (Option.some.inj hs).symm, ?_⟩
      intro e2 he2 hle
      simp only [ild_shelf_table, List.mem_cons, List.not_mem_nil, or_false] at he2
      rcases he2 with h | h | h <;> subst h <;> simp_all
  · intro s ir side
    refine ⟨by simp [apply_ild_shelf], ?_, ?_⟩
    · intro hside
      rw [apply_ild_shelf]
      simp only [if_neg hside, eq_self_iff_true, if_true, List.zipWith_map_right]
      congr 1
      funext x y
      ring
    · intro cls hcs hcc
      rw [apply_ild_shelf]
      simp only [if_neg hcc, if_neg hcs, List.zipWith_map_right]
      congr 1
      funext x y
      ring

/-- Witness for C7: with linear gain 2, the ipsilateral ear of a left
speaker gets its low-frequency component boosted by one half. -/
theorem C7_witness :
    apply_ild_shelf (some { sos := [], gainLinear := 2, gainDb := 6 }) [1] "left" "left"
      = [3 / 2] := by
  have h := ((C7_ild_shelf (fun _ => 1) (fun _ => []) 200).2
      { sos := [], gainLinear := 2, gainDb := 6 } [1] "left").2.1 (by decide)
  rw [h]
  norm_num [sosfilt, List.zipWith]

theorem spec_anomalous_cons (sp : String) (d : ℚ) (rest : List (String × ℚ)) :
    spec_anomalous ((sp, d) :: rest)
      = if 1 / 2 < |expected_ild_sign sp| ∧ expected_ild_sign sp * d < 0
        then d :: spec_anomalous rest else spec_anomalous rest := by
  rw [spec_anomalous, List.filterMap_cons]
  split_ifs <;> rfl

theorem spec_neutral_cons (sp : String) (d : ℚ) (rest : List (String × ℚ)) :
    spec_neutral ((sp, d) :: rest)
      = if |expected_ild_sign sp| ≤ 1 / 2
        then d :: spec_neutral rest else spec_neutral rest := by
  rw [spec_neutral, List.filterMap_cons]
  split_ifs <;> rfl

theorem partition_fst (entries : List (String × ℚ)) :
    (partition_deviations entries).1 = spec_anomalous entries := by
  induction entries with
  | nil => rfl
  | cons e rest ih =>
    obtain ⟨sp, d⟩ := e
    rw [spec_anomalous_cons]
    by_cases c1 : 1 / 2 < expected_ild_sign sp ∧ d < 0
    · have hA : 1 / 2 < |expected_ild_sign sp| ∧ expected_ild_sign sp * d < 0 :=
        ⟨by rw [abs_of_pos (by linarith [c1.1])]; exact c1.1,
         mul_neg_of_pos_of_neg (by linarith [c1.1]) c1.2⟩
      simp only [partition_deviations, if_pos c1, if_pos hA]
      rw [ih]
    · by_cases c2 : expected_ild_sign sp < -(1 / 2) ∧ 0 < d
      · have hA : 1 / 2 < |expected_ild_sign sp| ∧ expected_ild_sign sp * d < 0 :=
          ⟨by rw [abs_of_neg (by linarith [c2.1])]; linarith [c2.1],
           mul_neg_of_neg_of_pos (by linarith [c2.1]) c2.2⟩
        simp only [partition_deviations, if_neg c1, if_pos c2, if_pos hA]
        rw [ih]
      · by_cases c3 : |expected_ild_sign sp| ≤ 1 / 2
        · have hA : ¬ (1 / 2 < |expected_ild_sign sp| ∧ expected_ild_sign sp * d < 0) :=
            fun h => absurd c3 (not_le.mpr h.1)
          simp only [partition_deviations, if_neg c1, if_neg c2, if_pos c3, if_neg hA]
          exact ih
        · have hA : ¬ (1 / 2 < |expected_ild_sign sp| ∧ expected_ild_sign sp * d < 0) := by
            intro h
            rcases lt_abs.mp (not_le.mp c3) with hq | hq
            · have hd : 0 ≤ d := not_lt.mp (fun hd => c1 ⟨hq, hd⟩)
              exact absurd h.2 (not_lt.mpr (mul_nonneg (by linarith) hd))
            · have hd : d ≤ 0 := not_lt.mp (fun hd => c2 ⟨by linarith, hd⟩)
              exact absurd h.2 (not_lt.mpr (by nlinarith))
          simp only [partition_deviations, if_neg c1, if_neg c2, if_neg c3, if_neg hA]
          exact ih

theorem partition_snd (entries : List (String × ℚ)) :
    (partition_deviations entries).2 = spec_neutral entries := by
  induction entries with
  | nil => rfl
  | cons e rest ih =>
    obtain ⟨sp, d⟩ := e
    rw [spec_neutral_cons]
    by_cases c1 : 1 / 2 < expected_ild_sign sp ∧ d < 0
    · have hN : ¬ |expected_ild_sign sp| ≤ 1 / 2 := by
        rw [abs_of_pos (by linarith [c1.1])]; exact not_le.mpr c1.1
      simp only [partition_deviations, if_pos c1, if_neg hN]
      exact ih
    · by_cases c2 : expected_ild_sign sp < -(1 / 2) ∧ 0 < d
      · have hN : ¬ |expected_ild_sign sp| ≤ 1 / 2 := by
          rw [abs_of_neg (by linarith [c2.1])]; intro h; linarith [c2.1]
        simp only [partition_deviations, if_neg c1, if_pos c2, if_neg hN]
        exact ih
      · by_cases c3 : |expected_ild_sign sp| ≤ 1 / 2
        · simp only [partition_deviations, if_neg c1, if_neg c2, if_pos c3]
          rw [ih]
        · simp only [partition_deviations, if_neg c1, if_neg c2, if_neg c3]
          exact ih

theorem alookup_map_self (g : ℚ → ℚ) (bands : List ℚ) (f : ℚ) (hf : f ∈ bands) :
    alookup (bands.map (fun x => (x, g x))) f = some (g f) := by
  induction bands with
  | nil => simp at hf
  | cons b rest ih =>
    by_cases hb : b = f
    · subst hb
      simp [alookup, List.find?_cons]
    · have hmem : f ∈ rest := by
        rcases List.mem_cons.mp hf with h | h
        · exact absurd h.symm hb
        · exact h
      have hr := ih hmem
      simp only [alookup, List.map_cons, List.find?_cons] at hr ⊢
      rw [decide_eq_false hb]
      exact hr

/-- C2: for every octave band with collected data, the per-band
microphone error estimate of separate_microphone_error equals the median
of the anomalous deviations (prior magnitude above 0.5 and deviation
sign contradicting the prior) when any exist, else the median of the
neutral deviations (prior magnitude at most 0.5) when any exist, else
0.3 times the median of all deviations collected for that band. -/
theorem C2_separate_microphone_error (bands : List ℚ)
    (devs : List (String × List (ℚ × ℚ))) (f : ℚ)
    (hf : f ∈ bands) (hdev : devs ≠ []) (hband : band_entries devs f ≠ []) :
    alookup (separate_microphone_error bands devs) f
      = some (spec_band_estimate devs f) := by
  rw [separate_microphone_error, if_neg hdev, alookup_map_self _ bands f hf]
  congr 1
  rw [mic_error_band, spec_band_estimate, partition_fst, partition_snd]
  split_ifs with h1 h2
  · rfl
  · rfl
  · exact mul_comm _ _

/-- Witness for C2: two front speakers whose deviations both contradict
their priors at the 250 Hz band. -/
theorem C2_witness :
    alookup (separate_microphone_error [250]
        [("FL", [(250, -2)]), ("FR", [(250, 1)])]) 250
      = some (spec_band_estimate [("FL", [(250, -2)]), ("FR", [(250, 1)])] 250) :=
  C2_separate_microphone_error [250] [("FL", [(250, -2)]), ("FR", [(250, 1)])] 250
    (by simp) (by simp) (by simp [band_entries, alookup, List.find?_cons])

theorem npMean_bounds (l : List ℚ) (hne : l ≠ [])
    (h : ∀ x ∈ l, 0 ≤ x ∧ x ≤ 1) : 0 ≤ npMean l ∧ npMean l ≤ 1 := by
  have hlen : 0 < (l.length : ℚ) := by
    exact_mod_cast List.length_pos.mpr hne
  constructor
  · exact div_nonneg (List.sum_nonneg fun x hx => (h x hx).1) (le_of_lt hlen)
  · rw [npMean, div_le_one hlen]
    have hb := List.sum_le_card_nsmul l 1 fun x hx => (h x hx).2
    simpa using hb

theorem validation_scores_values (bands : List ℚ) (micErr : List (ℚ × ℚ))
    (devs : List (String × List (ℚ × ℚ))) :
    ∀ x ∈ validation_scores bands micErr devs, x = 0 ∨ x = 1 / 2 ∨ x = 1 := by
  intro x hx
  simp only [validation_scores, List.mem_flatMap] at hx
  obtain ⟨f, hf, hx⟩ := hx
  cases hme : alookup micErr f with
  | none => simp only [hme] at hx; simp at hx
  | some me =>
    simp only [hme, List.mem_flatMap] at hx
    obtain ⟨sd, hsd, hx⟩ := hx
    cases hdv : alookup sd.2 f with
    | none => simp only [hdv] at hx; simp at hx
    | some raw =>
      simp only [hdv] at hx
      by_cases he : 3 / 10 < |expected_ild_sign sd.1|
      · rw [if_pos he] at hx
        simp only [List.mem_singleton] at hx
        subst hx
        split_ifs <;> simp
      · rw [if_neg he] at hx
        simp at hx

/-- C6: validate_consistency scores the (speaker, band) pairs with prior
magnitude above 0.3 with 1 for a sign match of the corrected deviation,
0.5 for a corrected magnitude below 1 dB and 0 otherwise; the
consistency score is the mean of the scores and lies in the unit
interval; the result is valid exactly when the score exceeds 0.4, and
the confidence is high above 0.7, medium above 0.5 and low otherwise. -/
theorem C6_validate_consistency (bands : List ℚ) (micErr : List (ℚ × ℚ))
    (devs : List (String × List (ℚ × ℚ))) (r : ValidationResult)
    (hr : validate_consistency bands micErr devs = some r)
    (hs : validation_scores bands micErr devs ≠ []) :
    r.score = npMean (validation_scores bands micErr devs)
    ∧ 0 ≤ r.score ∧ r.score ≤ 1
    ∧ ((r.isValid = true) ↔ 2 / 5 < r.score)
    ∧ r.confidence = (if 7 / 10 < r.score then "high"
                      else if 1 / 2 < r.score then "medium" else "low")
    ∧ (∀ f me sp dvs raw, f ∈ bands → alookup micErr f = some me →
        (sp, dvs) ∈ devs → alookup dvs f = some raw →
        3 / 10 < |expected_ild_sign sp| →
        spec_score (expected_ild_sign sp) (raw - me)
          ∈ validation_scores bands micErr devs)
    ∧ ∀ x ∈ validation_scores bands micErr devs, x = 0 ∨ x = 1 / 2 ∨ x = 1 := by
  have hcond : ¬ (micErr = [] ∨ devs = []) := by
    intro h
    rw [validate_consistency, if_pos h] at hr
    exact Option.noConfusion hr
  rw [validate_consistency, if_neg hcond] at hr
  have hrec := Option.some.inj hr
  subst hrec
  have hvals := validation_scores_values bands micErr devs
  have hbounds := npMean_bounds (validation_scores bands micErr devs) hs
    (fun x hx => by rcases hvals x hx with h | h | h <;> subst h <;> norm_num)
  simp only [if_pos hs]
  refine ⟨trivial, hbounds.1, hbounds.2, decide_eq_true_iff, trivial, ?_, hvals⟩
  intro f me sp dvs raw hf hme hmem hdv he
  simp only [validation_scores, List.mem_flatMap]
  refine ⟨f, hf, ?_⟩
  simp only [hme, List.mem_flatMap]
  refine ⟨(sp, dvs), hmem, ?_⟩
  simp only [hdv, if_pos he]
  rw [spec_score]
  simp

/-- Witness for C6: one band, microphone error 1 dB, one speaker with
raw deviation 3 dB; the single corrected deviation matches the prior,
so the consistency score is 1. -/
theorem C6_witness :
    ({ score := 1, isValid := true, confidence := "high" } : ValidationResult).score
      = npMean (validation_scores [250] [(250, 1)] [("FL", [(250, 3)])]) := by
  refine (C6_validate_consistency [250] [(250, 1)] [("FL", [(250, 3)])]
    { score := 1, isValid := true, confidence := "high" } ?_ ?_).1
  · norm_num [validate_consistency, validation_scores, alookup, List.find?_cons,
      expected_ild_sign, npMean]
  · norm_num [validation_scores, alookup, List.find?_cons, expected_ild_sign]

theorem foldl_max_le (l : List ℕ) (a : ℕ) :
    a ≤ l.foldl max a ∧ ∀ x ∈ l, x ≤ l.foldl max a := by
  induction l generalizing a with
  | nil => simp
  | cons b rest ih =>
    refine ⟨le_trans (le_max_left a b) (ih (max a b)).1, ?_⟩
    intro x hx
    rcases List.mem_cons.mp hx with h | h
    · rw [h]
      exact le_trans (le_max_right a b) (ih (max a b)).1
    · exact (ih (max a b)).2 x h

theorem store_max_len_bound (store : Store) :
    ∀ e ∈ store, e.2.1.length ≤ store_max_len store
      ∧ e.2.2.length ≤ store_max_len store := by
  intro e he
  have h := (foldl_max_le (store.flatMap fun e => [e.2.1.length, e.2.2.length]) 0).2
  exact ⟨h _ (List.mem_flatMap.mpr ⟨e, he, by simp⟩),
         h _ (List.mem_flatMap.mpr ⟨e, he, by simp⟩)⟩

theorem getD_zipWith_mul_left_zero (a b : List ℚ) (j : ℕ) (h : a.getD j 0 = 0) :
    (List.zipWith (· * ·) a b).getD j 0 = 0 := by
  simp only [List.getD_eq_getElem?_getD, List.getElem?_zipWith] at h ⊢
  cases ha : a[j]? with
  | none => simp [ha]
  | some x =>
    rw [ha] at h
    simp only [Option.getD_some] at h
    cases hb : b[j]? <;> simp [ha, hb, h]

theorem getD_append_replicate_zero (d : List ℚ) (k j : ℕ) (hj : d.length ≤ j) :
    (d ++ List.replicate k 0).getD j 0 = 0 := by
  simp only [List.getD_eq_getElem?_getD, List.getElem?_append, List.getElem?_replicate]
  rw [if_neg (by omega)]
  split_ifs <;> rfl

theorem mulTail_getD_zero (w d : List ℚ) (j : ℕ) (h : d.getD j 0 = 0) :
    (mulTail w d).getD j 0 = 0 := by
  have hm : d.length - w.length ≤ d.length := Nat.sub_le _ _
  rw [mulTail]
  simp only [List.getD_eq_getElem?_getD, List.getElem?_append, List.length_take,
    min_eq_left hm] at h ⊢
  by_cases hj : j < d.length - w.length
  · rw [if_pos hj, List.getElem?_take, if_pos hj]
    exact h
  · rw [if_neg hj, List.getElem?_zipWith, List.getElem?_drop]
    have hidx : d.length - w.length + (j - (d.length - w.length)) = j := by omega
    rw [hidx]
    cases hd : d[j]? with
    | none => simp [hd]
    | some x =>
      rw [hd] at h
      simp only [Option.getD_some] at h
      cases hw : w[j - (d.length - w.length)]? <;> simp [hd, hw, h]

theorem mulTail_length (w d : List ℚ) (h : w.length ≤ d.length) :
    (mulTail w d).length = d.length := by
  simp only [mulTail, List.length_append, List.length_take, List.length_zipWith,
    List.length_drop]
  omega

theorem crop_tails_one_length (maxLen : ℕ) (w d : List ℚ) (hd : d.length ≤ maxLen) :
    (crop_tails_one maxLen w d).length = maxLen := by
  simp only [crop_tails_one]
  split_ifs with h1 h2 h3 h4 h5 h6 h7 h8 <;>
    simp_all [mulTail_length, List.length_append, List.length_zipWith,
      List.length_take, List.length_replicate] <;> omega

theorem crop_tails_one_getD_zero (maxLen : ℕ) (w d : List ℚ) (j : ℕ)
    (hd : d.length ≤ maxLen) (hj : d.length ≤ j) :
    (crop_tails_one maxLen w d).getD j 0 = 0 := by
  have hd0 : d.getD j 0 = 0 := by
    simp only [List.getD_eq_getElem?_getD]
    rw [List.getElem?_eq_none (by omega)]
    rfl
  simp only [crop_tails_one]
  split_ifs with h1 h2 h3 h4 h5 h6 h7 h8
  · exact mulTail_getD_zero _ _ _ (getD_append_replicate_zero d _ j hj)
  · exact getD_zipWith_mul_left_zero _ _ _ (getD_append_replicate_zero d _ j hj)
  · exact getD_append_replicate_zero d _ j hj
  · omega
  · omega
  · omega
  · exact mulTail_getD_zero _ _ _ hd0
  · exact getD_zipWith_mul_left_zero _ _ _ hd0
  · exact hd0

/-- C4: on a non-empty store with matching sampling rates, crop_tails
returns the original maximum buffer length, keeps the store shape, and
leaves every impulse response with exactly that common length; shorter
buffers grow only by zeros appended at the tail (no buffer is
truncated, as every length is at most the maximum). -/
theorem C4_crop_tails (ctx : TailCtx) (store store2 : Store) (ret : ℕ)
    (hne : store ≠ [])
    (hres : crop_tails ctx store = Except.ok (store2, ret)) :
    ret = store_max_len store
    ∧ store2.length = store.length
    ∧ ∀ i, i < store.length →
        (store2.getD i ("", ([], []))).1 = (store.getD i ("", ([], []))).1
        ∧ (store2.getD i ("", ([], []))).2.1.length = store_max_len store
        ∧ (store2.getD i ("", ([], []))).2.2.length = store_max_len store
        ∧ (store.getD i ("", ([], []))).2.1.length ≤ store_max_len store
        ∧ (store.getD i ("", ([], []))).2.2.length ≤ store_max_len store
        ∧ (∀ j, (store.getD i ("", ([], []))).2.1.length ≤ j →
            (store2.getD i ("", ([], []))).2.1.getD j 0 = 0)
        ∧ ∀ j, (store.getD i ("", ([], []))).2.2.length ≤ j →
            (store2.getD i ("", ([], []))).2.2.getD j 0 = 0 := by
  by_cases hfs : ctx.fs ≠ ctx.estimatorFs
  · rw [crop_tails, if_pos hfs] at hres
    exact absurd hres (by simp)
  · rw [crop_tails, if_neg hfs, if_neg hne] at hres
    simp only [Except.ok.injEq, Prod.mk.injEq] at hres
    obtain ⟨hstore, hret⟩ := hres
    subst hstore
    subst hret
    refine ⟨rfl, by simp, ?_⟩
    intro i hi
    have he : store[i]? = some store[i] := List.getElem?_eq_getElem hi
    have hmem : store[i] ∈ store := List.getElem_mem hi
    have hbound := store_max_len_bound store store[i] hmem
    have hsd : store.getD i ("", ([], [])) = store[i] := by
      rw [List.getD_eq_getElem?_getD, he]
      rfl
    have hmd : (store.map (fun e =>
        (e.1, (crop_tails_one (store_max_len store)
                 (if ctx.hannTail (crop_tails_fade ctx (store_max_len store)).toNat = []
                     ∧ 0 < crop_tails_fade ctx (store_max_len store) then
                    List.replicate (crop_tails_fade ctx (store_max_len store)).toNat 1
                  else ctx.hannTail (crop_tails_fade ctx (store_max_len store)).toNat)
                 e.2.1,
               crop_tails_one (store_max_len store)
                 (if ctx.hannTail (crop_tails_fade ctx (store_max_len store)).toNat = []
                     ∧ 0 < crop_tails_fade ctx (store_max_len store) then
                    List.replicate (crop_tails_fade ctx (store_max_len store)).toNat 1
                  else ctx.hannTail (crop_tails_fade ctx (store_max_len store)).toNat)
                 e.2.2)))).getD i ("", ([], []))
        = (store[i].1, (crop_tails_one (store_max_len store)
              (if ctx.hannTail (crop_tails_fade ctx (store_max_len store)).toNat = []
                  ∧ 0 < crop_tails_fade ctx (store_max_len store) then
                 List.replicate (crop_tails_fade ctx (store_max_len store)).toNat 1
               else ctx.hannTail (crop_tails_fade ctx (store_max_len store)).toNat)
              store[i].2.1,
            crop_tails_one (store_max_len store)
              (if ctx.hannTail (crop_tails_fade ctx (store_max_len store)).toNat = []
                  ∧ 0 < crop_tails_fade ctx (store_max_len store) then
                 List.replicate (crop_tails_fade ctx (store_max_len store)).toNat 1
               else ctx.hannTail (crop_tails_fade ctx (store_max_len store)).toNat)
              store[i].2.2)) := by
      rw [List.getD_eq_getElem?_getD, List.getElem?_map, he]
      rfl
    rw [hmd, hsd]
    refine ⟨rfl, crop_tails_one_length _ _ _ hbound.1,
      crop_tails_one_length _ _ _ hbound.2, hbound.1, hbound.2, ?_, ?_⟩
    · intro j hj
      exact crop_tails_one_getD_zero _ _ _ _ hbound.1 hj
    · intro j hj
      exact crop_tails_one_getD_zero _ _ _ _ hbound.2 hj

/-- Witness for C4: a one-sample buffer next to a two-sample buffer is
padded to the common maximum length of two. -/
theorem C4_witness :
    ([("FL", (([1, 0] : List ℚ), ([0, 2] : List ℚ)))].getD 0 ("", ([], []))).2.1.length
      = store_max_len [("FL", (([1] : List ℚ), ([0, 2] : List ℚ)))] := by
  have h := C4_crop_tails ctx_C4 [("FL", ([1], [0, 2]))] [("FL", ([1, 0], [0, 2]))] 2
    (by simp)
    (by norm_num [crop_tails, ctx_C4, store_max_len, crop_tails_fade, pyInt_eq,
      crop_tails_one, mulTail, Int.toNat_one])
  exact (h.2.2 0 (by simp)).2.1

theorem biquadRun_length (c : Biquad) (xs : List ℚ) :
    ∀ z1 z2, (biquadRun c xs z1 z2).length = xs.length := by
  induction xs with
  | nil => intro z1 z2; rfl
  | cons x rest ih =>
    intro z1 z2
    simp only [biquadRun, List.length_cons]
    rw [ih]

theorem sosfilt_length (sos : List Biquad) (xs : List ℚ) :
    (sosfilt sos xs).length = xs.length := by
  induction sos generalizing xs with
  | nil => rfl
  | cons c rest ih =>
    simp only [sosfilt, List.foldl_cons] at ih ⊢
    rw [ih (biquadRun c xs 0 0), biquadRun_length]

theorem np_roll_length (a : List ℚ) (n : ℤ) : (np_roll a n).length = a.length := by
  rw [np_roll]
  split_ifs <;> simp [List.length_rotate]

theorem vb_min_phase_bass_length (ctx : VBCtx) (l : List ℚ) :
    (vb_min_phase_bass ctx l).length = l.length := by
  simp only [vb_min_phase_bass]
  cases hmp : ctx.minPhaseOfSignal (if l.length % 2 ≠ 0 then l ++ [0] else l) with
  | none => simp
  | some mp =>
    simp only []
    split_ifs with h
    · simp only [List.length_append, List.length_replicate]
      omega
    · simp only [List.length_take]
      omega

theorem apply_ild_shelf_length (shelf : Option ShelfInfo) (ir : List ℚ)
    (side cls : String) : (apply_ild_shelf shelf ir side cls).length = ir.length := by
  cases shelf with
  | none => rfl
  | some s =>
    rw [apply_ild_shelf]
    split_ifs with h1 h2
    · rfl
    · simp [List.length_zipWith, List.length_map, sosfilt_length]
    · simp [List.length_zipWith, List.length_map, sosfilt_length]

theorem vb_channel_length (ctx : VBCtx) (shelf : Option ShelfInfo) (fi : ℕ)
    (side cls : String) (ir : List ℚ) :
    (vb_channel ctx shelf fi side cls ir).length = ir.length := by
  simp only [vb_channel, List.length_zipWith, List.length_take, apply_ite List.length,
    np_roll_length, apply_ild_shelf_length, List.length_map, sosfilt_length,
    vb_min_phase_bass_length, ite_self]
  omega

/-- C10: for every crossover below the Nyquist frequency, every
(speaker, ear) channel written back by synthesize_virtual_bass has
exactly as many samples as its input buffer, whichever branches of the
minimum-phase reconstruction, gain matching, shelving and alignment are
taken. -/
theorem C10_length_preserving (ctx : VBCtx) (store : Store)
    (hx : ctx.crossover < ctx.fs / 2) :
    (synthesize_virtual_bass ctx store).map (fun e => (e.1, e.2.1.length, e.2.2.length))
      = store.map (fun e => (e.1, e.2.1.length, e.2.2.length)) := by
  rw [synthesize_virtual_bass.eq_def, if_neg (not_le.mpr hx)]
  cases store with
  | nil => rfl
  | cons e0 rest =>
    simp only [List.map_map]
    apply List.map_congr_left
    intro a _
    simp only [Function.comp]
    rw [vb_channel_length, vb_channel_length]

/-- Witness for C10: a three-sample and a two-sample buffer keep their
lengths through the full synthesis at crossover 250 of 1000 Hz. -/
theorem C10_witness :
    (synthesize_virtual_bass vb_ctx_run [("FL", ([1, 2, 3], [4, 5]))]).map
        (fun e => (e.1, e.2.1.length, e.2.2.length))
      = [("FL", (3, 2))] := by
  rw [C10_length_preserving vb_ctx_run _ (by norm_num [vb_ctx_run])]
  rfl

theorem applyFadeIn_length (w d : List ℚ) (h : w.length ≤ d.length) :
    (applyFadeIn w d).length = d.length := by
  simp only [applyFadeIn, List.length_append, List.length_zipWith, List.length_take,
    List.length_drop]
  omega

theorem applyFadeIn_getD (w d : List ℚ) (i : ℕ) (h : w.length ≤ i) :
    (applyFadeIn w d).getD i 0 = d.getD i 0 := by
  simp only [applyFadeIn, List.getD_eq_getElem?_getD, List.getElem?_append,
    List.length_zipWith, List.length_take]
  by_cases hw : w.length ≤ d.length
  · rw [min_eq_left hw, min_self, if_neg (by omega), List.getElem?_drop]
    have hidx : w.length + (i - w.length) = i := by omega
    rw [hidx]
  · have hdw : d.length ≤ w.length := le_of_lt (not_le.mp hw)
    rw [min_eq_right hdw, min_eq_right hdw, if_neg (by omega), List.getElem?_drop,
      List.getElem?_eq_none (l := d) (by omega), List.getElem?_eq_none (by omega)]

theorem getD_drop (l : List ℚ) (n i : ℕ) : (l.drop n).getD i 0 = l.getD (n + i) 0 := by
  simp [List.getD_eq_getElem?_getD, List.getElem?_drop]

/-- Counterexample for C1: head_ms 1.5 at fs 1000 with peaks at 5 and 8.
The code crops both ears at the later peak minus its delay (start 7),
while the claimed formula, anchored at the earlier peak with a rounded
head term, predicts start 3, so the cropped length differs. -/
theorem C1_counterexample :
    ¬ claim_C1_at ctx_C1 "FL" data_C1_left data_C1_right := by
  intro h
  have hpl : peak_index data_C1_left = 5 := by
    norm_num [peak_index, data_C1_left, argmaxList, argmaxAux]
  have hpr : peak_index data_C1_right = 8 := by
    norm_num [peak_index, data_C1_right, argmaxList, argmaxAux]
  have hdelay : crop_heads_delay ctx_C1 "FL" = 1 := by
    norm_num [crop_heads_delay, ctx_C1, roundHalfEven_eq, pyInt_eq]
  have hspec : spec_delay_C1 ctx_C1 "FL" = 2 := by
    norm_num [spec_delay_C1, ctx_C1, roundHalfEven_eq]
  have hwv : ctx_C1.hannHalf (pyInt (ctx_C1.headMs * ctx_C1.fs / 1000)).toNat = [0] := by
    norm_num [ctx_C1, pyInt_eq]
  have hlen1 : (crop_heads_pair ctx_C1 "FL" data_C1_left data_C1_right).1.length = 5 := by
    simp only [crop_heads_pair, hpl, hpr, hdelay, hwv]
    rw [if_pos (by norm_num)]
    have hslice : pySliceFrom data_C1_left ((8 : ℕ) - (1 : ℤ)) = data_C1_left.drop 7 := by
      rw [pySliceFrom, if_pos (by norm_num)]
      norm_num
      rfl
    rw [hslice, applyFadeIn_length _ _ (by simp [data_C1_left])]
    simp [data_C1_left]
  simp only [claim_C1_at] at h
  obtain ⟨h1, -⟩ := h
  rw [hlen1, hpl, hpr, hspec] at h1
  norm_num [data_C1_left] at h1

/-- C1 (amended): crop_heads cuts both ears of a speaker pair at the
same start index far_peak - delay, where far_peak is the peak index of
the later-arriving ear and delay adds the rounded physical delay to the
truncated head term int(head_ms * fs / 1000); past the fade-in window
the cropped buffers are the corresponding suffixes of the originals. -/
theorem C1_crop_start (ctx : CropCtx) (speaker : String) (l r : List ℚ)
    (hw : ∀ n, (ctx.hannHalf n).length = n)
    (h0 : 0 ≤ ((max (peak_index l) (peak_index r) : ℕ) : ℤ) - crop_heads_delay ctx speaker)
    (hlen : (((max (peak_index l) (peak_index r) : ℕ) : ℤ) - crop_heads_delay ctx speaker).toNat
              + (pyInt (ctx.headMs * ctx.fs / 1000)).toNat ≤ min l.length r.length) :
    ((crop_heads_pair ctx speaker l r).1.length : ℤ)
        = l.length - (((max (peak_index l) (peak_index r) : ℕ) : ℤ) - crop_heads_delay ctx speaker)
    ∧ ((crop_heads_pair ctx speaker l r).2.length : ℤ)
        = r.length - (((max (peak_index l) (peak_index r) : ℕ) : ℤ) - crop_heads_delay ctx speaker)
    ∧ ∀ i, (pyInt (ctx.headMs * ctx.fs / 1000)).toNat ≤ i →
        (crop_heads_pair ctx speaker l r).1.getD i 0
            = l.getD ((((max (peak_index l) (peak_index r) : ℕ) : ℤ)
                        - crop_heads_delay ctx speaker).toNat + i) 0
        ∧ (crop_heads_pair ctx speaker l r).2.getD i 0
            = r.getD ((((max (peak_index l) (peak_index r) : ℕ) : ℤ)
                        - crop_heads_delay ctx speaker).toNat + i) 0 := by
  have hpair : crop_heads_pair ctx speaker l r
      = (applyFadeIn (ctx.hannHalf (pyInt (ctx.headMs * ctx.fs / 1000)).toNat)
           (pySliceFrom l (((max (peak_index l) (peak_index r) : ℕ) : ℤ)
                            - crop_heads_delay ctx speaker)),
         applyFadeIn (ctx.hannHalf (pyInt (ctx.headMs * ctx.fs / 1000)).toNat)
           (pySliceFrom r (((max (peak_index l) (peak_index r) : ℕ) : ℤ)
                            - crop_heads_delay ctx speaker))) := by
    simp only [crop_heads_pair]
    by_cases hc : peak_index l < peak_index r
    · rw [max_eq_right (le_of_lt hc), if_pos hc]
    · rw [max_eq_left (not_lt.mp hc), if_neg hc]

  have hslice : ∀ d : List ℚ,
      pySliceFrom d (((max (peak_index l) (peak_index r) : ℕ) : ℤ)
                      - crop_heads_delay ctx speaker)
        = d.drop (((max (peak_index l) (peak_index r) : ℕ) : ℤ)
                   - crop_heads_delay ctx speaker).toNat :=
    fun d => by rw [pySliceFrom, if_pos h0]
  rw [hpair, hslice, hslice]
  refine ⟨?_, ?_, ?_⟩
  · rw [applyFadeIn_length _ _ (by rw [hw, List.length_drop]; omega), List.length_drop]
    omega
  · rw [applyFadeIn_length _ _ (by rw [hw, List.length_drop]; omega), List.length_drop]
    omega
  · intro i hi
    constructor
    · rw [applyFadeIn_getD _ _ _ (by rw [hw]; exact hi), getD_drop]
    · rw [applyFadeIn_getD _ _ _ (by rw [hw]; exact hi), getD_drop]

/-- Witness for C1: at the counterexample input the code crops at start
7 = 8 - 1, leaving 5 of 12 samples in both ears. -/
theorem C1_witness :
    ((crop_heads_pair ctx_C1 "FL" data_C1_left data_C1_right).1.length : ℤ)
      = (data_C1_left.length : ℤ)
        - (((max (peak_index data_C1_left) (peak_index data_C1_right) : ℕ) : ℤ)
            - crop_heads_delay ctx_C1 "FL") := by
  refine (C1_crop_start ctx_C1 "FL" data_C1_left data_C1_right
    (fun n => by simp [ctx_C1]) ?_ ?_).1
  · norm_num [peak_index, data_C1_left, data_C1_right, argmaxList, argmaxAux,
      crop_heads_delay, ctx_C1, roundHalfEven_eq, pyInt_eq]
  · norm_num [peak_index, data_C1_left, data_C1_right, argmaxList, argmaxAux,
      crop_heads_delay, ctx_C1, roundHalfEven_eq, pyInt_eq]
    omega

theorem argmaxAux_dominated (l : List ℚ) :
    ∀ (i0 best : ℕ) (bv : ℚ), (∀ j, j < l.length → l.getD j 0 ≤ bv) →
      argmaxAux l i0 best bv = best := by
  induction l with
  | nil => intro i0 best bv _; rfl
  | cons x rest ih =>
    intro i0 best bv h
    have hx : x ≤ bv := by simpa using h 0 (by simp)
    rw [argmaxAux, if_neg (not_lt.mpr hx)]
    exact ih (i0 + 1) best bv fun j hj => by
      simpa using h (j + 1) (by simpa using Nat.succ_lt_succ hj)

theorem argmaxAux_finds (l : List ℚ) :
    ∀ (k i0 best : ℕ) (bv : ℚ), k < l.length → bv < l.getD k 0 →
      (∀ j, j < l.length → j ≠ k → l.getD j 0 < l.getD k 0) →
      argmaxAux l i0 best bv = i0 + k := by
  induction l with
  | nil => intro k i0 best bv hk; simp at hk
  | cons x rest ih =>
    intro k i0 best bv hk hgt hmax
    cases k with
    | zero =>
      have hx : bv < x := by simpa using hgt
      rw [argmaxAux, if_pos hx]
      rw [argmaxAux_dominated rest (i0 + 1) i0 x fun j hj => by
        have := hmax (j + 1) (by simpa using Nat.succ_lt_succ hj) (by simp)
        simpa using le_of_lt this]
      omega
    | succ k2 =>
      have hk2 : k2 < rest.length := by simpa using hk
      have hx : x < rest.getD k2 0 := by
        simpa using hmax 0 (by simp) (by simp)
      have hmax2 : ∀ j, j < rest.length → j ≠ k2 →
          rest.getD j 0 < rest.getD k2 0 := fun j hj hne => by
        have := hmax (j + 1) (by simpa using Nat.succ_lt_succ hj) (by omega)
        simpa using this
      have hgt2 : bv < rest.getD k2 0 := by simpa using hgt
      rw [argmaxAux]
      by_cases hbx : bv < x
      · rw [if_pos hbx, ih k2 (i0 + 1) i0 x hk2 hx hmax2]
        omega
      · rw [if_neg hbx, ih k2 (i0 + 1) best bv hk2 hgt2 hmax2]
        omega

theorem argmaxList_eq_of_strict (l : List ℚ) (k : ℕ) (hk : k < l.length)
    (h : ∀ j, j < l.length → j ≠ k → l.getD j 0 < l.getD k 0) :
    argmaxList l = k := by
  cases l with
  | nil => simp at hk
  | cons x rest =>
    cases k with
    | zero =>
      rw [argmaxList]
      exact argmaxAux_dominated rest 1 0 x fun j hj => by
        have := h (j + 1) (by simpa using Nat.succ_lt_succ hj) (by simp)
        simpa using le_of_lt this
    | succ k2 =>
      rw [argmaxList]
      have hk2 : k2 < rest.length := by simpa using hk
      have hx : x < rest.getD k2 0 := by
        simpa using h 0 (by simp) (by simp)
      have hmax2 : ∀ j, j < rest.length → j ≠ k2 →
          rest.getD j 0 < rest.getD k2 0 := fun j hj hne => by
        have := h (j + 1) (by simpa using Nat.succ_lt_succ hj) (by omega)
        simpa using this
      rw [argmaxAux_finds rest k2 1 0 x hk2 hx hmax2]
      omega

theorem superpose_length (a b : List ℚ) :
    (superpose a b).length = max a.length b.length := by
  induction a generalizing b with
  | nil => simp [superpose]
  | cons x xs ih =>
    cases b with
    | nil => simp [superpose]
    | cons y ys =>
      simp only [superpose, List.length_cons, ih]
      omega

theorem convFull_length (a v : List ℚ) (ha : a ≠ []) (hv : v ≠ []) :
    (convFull a v).length = a.length + v.length - 1 := by
  induction a with
  | nil => exact absurd rfl ha
  | cons x xs ih =>
    rw [convFull, superpose_length]
    by_cases hxs : xs = []
    · subst hxs
      have hvpos := List.length_pos.mpr hv
      simp only [convFull, List.length_map, List.length_cons, List.length_nil]
      omega
    · have hrec := ih hxs
      have hvpos := List.length_pos.mpr hv
      have hxspos := List.length_pos.mpr hxs
      simp only [List.length_map, List.length_cons, hrec]
      omega

theorem drop_replicate_append (k p : ℕ) (a : List ℚ) :
    (List.replicate k (0 : ℚ) ++ a).drop (k + p) = a.drop p := by
  induction k with
  | zero => simp
  | succ n ih =>
    rw [List.replicate_succ, List.cons_append]
    have hidx : n + 1 + p = (n + p) + 1 := by omega
    rw [hidx, List.drop_succ_cons]
    exact ih

/-- Counterexample for C5: SL holds the FL buffer delayed by exactly two
samples; both peak-anchored correlation segments coincide, so the
recovered delay is 0, not 2, and no alignment happens. -/
theorem C5_counterexample : ¬ claim_C5_at 1000 3 store_C5 "FL" "SL" 2 := by
  intro h
  have hd : align_delay 1000 3 [1, 0, 0] (List.replicate 2 0 ++ [1, 0, 0]) = 0 := by
    norm_num [align_delay, peak_segment, peak_index, argmaxList, argmaxAux,
      correlateFull, convFull, superpose, pyInt_eq, List.replicate,
      List.reverse_cons]
  have hA : slookup store_C5 "FL" = some (([1, 0, 0] : List ℚ), ([] : List ℚ)) := by
    decide
  have hB : slookup store_C5 "SL"
      = some ((List.replicate 2 0 ++ [1, 0, 0] : List ℚ), ([] : List ℚ)) := by
    decide
  simp only [claim_C5_at, hA, hB] at h
  obtain ⟨h1, -⟩ := h
  rw [hd] at h1
  simp at h1

/-- C5 (amended): the integer delay is read as the argmax of the full
cross-correlation of the two peak-anchored segments minus one less than
the second segment length, and the zero padding goes to whichever buffer
the sign selects; for a pair that differs only by an integer delay the
two segments coincide, so when the shared segment has a strict
autocorrelation maximum at zero lag the recovered delay is 0 and
align_ipsilateral_all leaves the store unchanged, the peak offset delta
included. -/
theorem C5_align_identical_segments (fs segMs : ℚ) (sa sb : String)
    (a ra rb : List ℚ) (delta : ℕ)
    (hL : strEndsWith sa "L" = true)
    (hne : sa ≠ sb)
    (hpb : peak_index (List.replicate delta 0 ++ a) = delta + peak_index a)
    (hseg : peak_segment fs segMs a ≠ [])
    (hstrict : ∀ j,
        j < (correlateFull (peak_segment fs segMs a) (peak_segment fs segMs a)).length →
        j ≠ (peak_segment fs segMs a).length - 1 →
        (correlateFull (peak_segment fs segMs a) (peak_segment fs segMs a)).getD j 0
          < (correlateFull (peak_segment fs segMs a) (peak_segment fs segMs a)).getD
              ((peak_segment fs segMs a).length - 1) 0) :
    align_delay fs segMs a (List.replicate delta 0 ++ a) = 0
    ∧ align_ipsilateral_all fs segMs [(sa, sb)]
        [(sa, (a, ra)), (sb, (List.replicate delta 0 ++ a, rb))]
      = [(sa, (a, ra)), (sb, (List.replicate delta 0 ++ a, rb))]
    ∧ peak_index (List.replicate delta 0 ++ a) = delta + peak_index a := by
  have hsegb : peak_segment fs segMs (List.replicate delta 0 ++ a)
      = peak_segment fs segMs a := by
    rw [peak_segment, peak_segment, hpb, drop_replicate_append]
  have hpos := List.length_pos.mpr hseg
  have hlen : (correlateFull (peak_segment fs segMs a) (peak_segment fs segMs a)).length
      = 2 * (peak_segment fs segMs a).length - 1 := by
    rw [correlateFull, convFull_length _ _ hseg (by simp [hseg]), List.length_reverse]
    omega
  have hargmax : argmaxList (correlateFull (peak_segment fs segMs a)
      (peak_segment fs segMs a)) = (peak_segment fs segMs a).length - 1 := by
    apply argmaxList_eq_of_strict
    · rw [hlen]
      omega
    · exact hstrict
  have hdelay : align_delay fs segMs a (List.replicate delta 0 ++ a) = 0 := by
    simp only [align_delay, hsegb, hargmax]
    omega
  refine ⟨hdelay, ?_, hpb⟩
  have hne2 : sb ≠ sa := Ne.symm hne
  have h1 : slookup [(sa, (a, ra)), (sb, (List.replicate delta 0 ++ a, rb))] sa
      = some (a, ra) := by
    simp [slookup, List.find?_cons]
  have h2 : slookup [(sa, (a, ra)), (sb, (List.replicate delta 0 ++ a, rb))] sb
      = some (List.replicate delta 0 ++ a, rb) := by
    simp [slookup, List.find?_cons, hne]
  rw [align_ipsilateral_all, List.foldl_cons, List.foldl_nil, align_pair_step.eq_def]
  simp only [h1, h2, hL]
  rw [if_pos (Or.inl trivial)]
  simp only [if_true]
  rw [hdelay]
  norm_num
  simp [setSide, hne2]

/-- Witness for C5: the three-sample spike pair with delay two yields a
recovered delay of zero. -/
theorem C5_witness :
    align_delay 1000 3 [1, 0, 0] (List.replicate 2 0 ++ [1, 0, 0]) = 0 := by
  have hs : peak_segment 1000 3 [1, 0, 0] = [1, 0, 0] := by
    norm_num [peak_segment, peak_index, argmaxList, argmaxAux, pyInt_eq]
  have hc : correlateFull (peak_segment 1000 3 [1, 0, 0]) (peak_segment 1000 3 [1, 0, 0])
      = [0, 0, 1, 0, 0] := by
    rw [hs]
    norm_num [correlateFull, convFull, superpose, List.reverse_cons]
  exact (C5_align_identical_segments 1000 3 "FL" "SL" [1, 0, 0] [] [] 2
    (by decide) (by decide)
    (by norm_num [peak_index, argmaxList, argmaxAux, List.replicate])
    (by rw [hs]; simp)
    (by
      rw [hc, hs]
      intro j hj hne
      simp only [List.length_cons, List.length_nil] at hj
      interval_cases j <;> simp_all)).1
